import Mathlib

/-!
Shallow embedding of the ReliableUDP sender (`src/sender.c`) and receiver
(`src/receiver.c`): a stop-and-wait sliding-window ARQ transferring a file
over UDP in windows of 10 packets of up to 500 payload bytes each.

Buffers are lists of bytes (`Nat`, each conceptually < 256; the protocol
never inspects payload bytes, so nothing constrains them).  C `char` is
signed 8-bit on the target platform (x86 Linux / gcc), which matters for
the sequence-number byte: storing an `int` into a `char` keeps the value
mod 256, and reading it back sign-extends.  Machine `int` arithmetic is
modeled by `Int` (all values involved are tiny, far from overflow).

The transport is modeled by explicit datagram lists: a receive loop
consumes a list of incoming datagrams, and "the next receive would block"
is the list being exhausted.  The sender's 100 ms receive timeout makes
each ack-collection phase a finite list of acks followed by one timeout.
-/

namespace ReliableUDP

/-- Header bytes of a data packet: byte 0 sequence number, byte 1 EOF flag
(`#define HEADER_SIZE 2`). -/
def HEADER_SIZE : Nat := 2

/-- Payload capacity of one data packet (`#define DATA_SIZE 500`). -/
def DATA_SIZE : Nat := 500

/-- On-wire size of a full data packet
(`#define PACKET_SIZE HEADER_SIZE + DATA_SIZE`). -/
def PACKET_SIZE : Nat := HEADER_SIZE + DATA_SIZE

/-- Packets per window (`#define WINDOW_SIZE 10`, both endpoints). -/
def WINDOW_SIZE : Nat := 10

/-- Sender's bound on consecutive ack timeouts (`#define MAX_TIMEOUTS 100`). -/
def MAX_TIMEOUTS : Nat := 100

/-- Receiver's largest window-start sequence number
(`#define MAX_START_SEQ 100` in receiver.c). -/
def MAX_START_SEQ : Nat := 100

/-- Sender's largest window-start sequence number
(`#define MAX_START_SEQ MAX_TIMEOUTS` in sender.c). -/
def senderMAX_START_SEQ : Nat := MAX_TIMEOUTS

/-- Value read back through a plain `char` holding byte `b`: `char` is
signed 8-bit on the target, so bytes 128..255 come back negative.  Models
`const int seqNo = packet[0]` (receiver.c line 80) and the use of `buf[0]`
in recvAcks (sender.c lines 129-132). -/
def signedCharOfByte (b : Nat) : Int :=
  if b % 256 < 128 then ((b % 256 : Nat) : Int) else ((b % 256 : Nat) : Int) - 256

/-- Byte stored when an `int` is assigned into a `char` slot, e.g.
`packet[0] = seq + i` (sender.c line 168): value is kept modulo 256. -/
def byteOfInt (v : Int) : Nat := (v % 256).toNat

/-- The in-window test both endpoints use: `seqNo >= seq && seqNo <= seqEnd`
with `seqEnd = seq + WINDOW_SIZE - 1` (receiver.c lines 81-84, sender.c
lines 127-130); ordinary integer comparison, no modular wrap. -/
def inWindow (seqNo seq : Int) : Bool :=
  decide (seq ≤ seqNo) && decide (seqNo ≤ seq + ((WINDOW_SIZE : Nat) : Int) - 1)

/-- Slot of a sequence number: `seqNo % WINDOW_SIZE` with C's truncating
`%` on `int` (receiver.c line 86, sender.c line 132); only ever used to
index an array under the in-window guard, where `seqNo ≥ seq ≥ 0`. -/
def packetNumberOf (seqNo : Int) : Nat :=
  (Int.tmod seqNo ((WINDOW_SIZE : Nat) : Int)).toNat

/-- Sequence number of slot `i` of the window based at `seq`, as the
`int` value `seq + i` both endpoints compute. -/
def seqNoOfSlot (seq : Int) (i : Nat) : Int := seq + (i : Int)

/-- A data datagram as it crosses the wire: raw sequence byte, EOF flag
byte (0 or 1), and the payload bytes.  `payload.length` is the datagram
length minus `HEADER_SIZE`. -/
structure Datagram where
  seqByte : Nat
  eofFlag : Bool
  payload : List Nat
deriving DecidableEq

/-- Models `memcpy(dst + off, src, src.length)` into a buffer represented
as a list: bytes `[off, off + src.length)` are replaced by `src`. -/
def memcpyAt (dst : List Nat) (off : Nat) (src : List Nat) : List Nat :=
  dst.take off ++ src ++ dst.drop (off + src.length)

/-! ## Receiver (`src/receiver.c`) -/

/-- Local state of one `recvPackets` call (receiver.c lines 64-113):
`totalPacketsExpected`, the `packetsReceived` flag array, the count of
distinct in-window packets received, the running byte total, the window
assembly buffer `bufOut`, and the session EOF flag `*eofOut`. -/
structure RecvState where
  totalPacketsExpected : Nat
  packetsReceived : List Bool
  totalPacketsReceived : Nat
  bytesReceived : Nat
  bufOut : List Nat
  eofOut : Bool
deriving DecidableEq

/-- State at the top of `recvPackets`: 10 packets expected, no flags set,
nothing received; `garbage` is the caller's (uninitialized) window buffer
`char buf[DATA_SIZE * WINDOW_SIZE]` and the inherited EOF flag is false. -/
def initRecvState (garbage : List Nat) : RecvState :=
  { totalPacketsExpected := WINDOW_SIZE
  , packetsReceived := List.replicate WINDOW_SIZE false
  , totalPacketsReceived := 0
  , bytesReceived := 0
  , bufOut := garbage
  , eofOut := false }

/-- One iteration of the receiver loop body on an arriving datagram
(receiver.c lines 74-110): classify by the in-window test; if new and
in-window, account the payload, handle the EOF flag (shrinking
`totalPacketsExpected` to `packetNumber + 1`), and `memcpy` the payload to
offset `packetNumber * DATA_SIZE`; in every case produce exactly one ack
echoing the decoded sequence number. -/
def recvStep (seq : Int) (s : RecvState) (d : Datagram) : RecvState × Int :=
  let seqNo := signedCharOfByte d.seqByte
  let packetNumber := packetNumberOf seqNo
  -- `!isPrevWindowAck && !packetsReceived[packetNumber]`
  if inWindow seqNo seq && !(s.packetsReceived.getD packetNumber false) then
    ({ totalPacketsExpected :=
         if d.eofFlag then packetNumber + 1 else s.totalPacketsExpected
     , packetsReceived := s.packetsReceived.set packetNumber true
     , totalPacketsReceived := s.totalPacketsReceived + 1
     , bytesReceived := s.bytesReceived + d.payload.length
     , bufOut := memcpyAt s.bufOut (packetNumber * DATA_SIZE) d.payload
     , eofOut := if d.eofFlag then true else s.eofOut }, seqNo)
  else (s, seqNo)

/-- The `recvPackets` loop (receiver.c lines 73-111): consume incoming
datagrams until `totalPacketsReceived == totalPacketsExpected`; on success
return the byte total, the final state, the list of acks sent (one per
consumed datagram, in order) and the datagrams left unconsumed.  `none`
models blocking forever: the datagram list is exhausted with the window
still incomplete (the receiver's `recvfrom` has no timeout). -/
def recvPackets (seq : Int) : RecvState → List Datagram →
    Option (Nat × RecvState × List Int × List Datagram)
  | s, [] =>
    if s.totalPacketsReceived = s.totalPacketsExpected then
      some (s.bytesReceived, s, [], [])
    else none
  | s, d :: rest =>
    if s.totalPacketsReceived = s.totalPacketsExpected then
      some (s.bytesReceived, s, [], d :: rest)
    else
      match recvPackets seq (recvStep seq s d).1 rest with
      | none => none
      | some (b, s', acksSent, rest') =>
          some (b, s', (recvStep seq s d).2 :: acksSent, rest')

/-- Receiver's sequence-base advance (receiver.c lines 136-139):
`seq == MAX_START_SEQ ? 0 : seq + WINDOW_SIZE`. -/
def receiverAdvanceSeq (seq : Int) : Int :=
  if seq = ((MAX_START_SEQ : Nat) : Int) then 0 else seq + ((WINDOW_SIZE : Nat) : Int)

/-- The `receiveFile` loop (receiver.c lines 127-140): per window, run
`recvPackets` on a fresh buffer (contents `garbage`, arbitrary), append the
first `bufSize` bytes of the assembled buffer to the output file, and stop
once the EOF flag was set.  `fuel` bounds the number of windows; the
driver `receiverRun` supplies more fuel than windows are possible. -/
def receiveFileAux (garbage : List Nat) :
    Nat → Int → List Nat → List Datagram → Option (List Nat)
  | 0, _, _, _ => none
  | fuel + 1, seq, out, ds =>
    match recvPackets seq (initRecvState garbage) ds with
    | none => none
    | some (bufSize, s, _, rest) =>
      let out' := out ++ s.bufOut.take bufSize
      if s.eofOut then some out'
      else receiveFileAux garbage fuel (receiverAdvanceSeq seq) out' rest

/-- Whole receiver run on an incoming datagram list: `some output` if the
receiver terminates having consumed (a prefix of) the list, `none` if it
blocks forever waiting for a datagram that never comes.  Each window of
`recvPackets` consumes at least one datagram, so `ds.length + 1` windows
of fuel can never be the reason for `none`. -/
def receiverRun (garbage : List Nat) (ds : List Datagram) : Option (List Nat) :=
  receiveFileAux garbage (ds.length + 1) 0 [] ds

/-! ## Sender (`src/sender.c`) -/

/-- The `calculatePacketSize` function (sender.c lines 77-92): full `PACKET_SIZE` except
for the last packet of a window whose chunk is not a multiple of
`DATA_SIZE`, which carries the remainder plus the header. -/
def calculatePacketSize (bufSize : Nat) (isLastPacket : Bool) : Nat :=
  if isLastPacket then
    if bufSize % DATA_SIZE = 0 then PACKET_SIZE else bufSize % DATA_SIZE + HEADER_SIZE
  else PACKET_SIZE

/-- Packet count as computed in `sendPackets` (sender.c lines 146-148):
`bufSize / DATA_SIZE`, plus one if there is a remainder. -/
def numberOfPackets (bufSize : Nat) : Nat :=
  bufSize / DATA_SIZE + (if bufSize % DATA_SIZE ≠ 0 then 1 else 0)

/-- One transmit sweep of `sendPackets` (sender.c lines 155-181) over the
slot indices `is` with running `bufIndex`: skip acked slots (advancing
`bufIndex`), otherwise emit a datagram whose sequence byte is the stored
`seq + i`, whose EOF-flag byte is `isLastPacket && feof(file)` (`atEof`),
and whose transmitted payload is the `packetSize - HEADER_SIZE` chunk
bytes starting at `bufIndex` (the datagram sent is `packet[0..packetSize)`,
so exactly that many payload bytes go on the wire). -/
def sweepFrom (buf : List Nat) (seq : Int) (n : Nat) (atEof : Bool)
    (acks : List Bool) : List Nat → Nat → List Datagram
  | [], _ => []
  | i :: is, bufIndex =>
    let isLastPacket : Bool := decide (i + 1 = n)
    let packetSize := calculatePacketSize buf.length isLastPacket
    if acks.getD i false then
      sweepFrom buf seq n atEof acks is (bufIndex + (packetSize - HEADER_SIZE))
    else
      { seqByte := byteOfInt (seq + (i : Int))
      , eofFlag := isLastPacket && atEof
      , payload := (buf.drop bufIndex).take (packetSize - HEADER_SIZE) }
        :: sweepFrom buf seq n atEof acks is (bufIndex + (packetSize - HEADER_SIZE))

/-- One full `for` sweep of `sendPackets`: slots `0..numberOfPackets-1`,
`bufIndex` starting at 0.  `buf` is the chunk actually read, so
`buf.length` is `bufSize`. -/
def transmitSweep (buf : List Nat) (seq : Int) (atEof : Bool)
    (acks : List Bool) : List Datagram :=
  sweepFrom buf seq (numberOfPackets buf.length) atEof acks
    (List.range (numberOfPackets buf.length)) 0

/-- Ack classification and bookkeeping in `recvAcks` (sender.c lines
127-137): count an ack and set its slot flag only if it is in the current
window and its slot is not yet acked.  Returns the new flag array and
whether the ack was counted. -/
def ackStep (seq : Int) (acks : List Bool) (ackByte : Int) : List Bool × Bool :=
  let packetNumber := packetNumberOf ackByte
  -- `!isPrevWindowAck && !acks[packetNumber]`
  if inWindow ackByte seq && !(acks.getD packetNumber false) then
    (acks.set packetNumber true, true)
  else (acks, false)

/-- One `recvAcks` call (sender.c lines 100-140): a phase reads the queued
acks (each arrival resets `totalTimeouts` to 0), then the next receive
times out, incrementing `totalTimeouts`; if the counter then exceeds
`MAX_TIMEOUTS` the sender dies (`none`), else the phase returns the acks
counted this phase, the updated flag array, and the new counter. -/
def recvAcksPhase (seq : Int) : List Bool → Nat → Nat → List Int →
    Option (Nat × List Bool × Nat)
  | acks, totalAcks, totalTimeouts, [] =>
    if totalTimeouts + 1 > MAX_TIMEOUTS then none
    else some (totalAcks, acks, totalTimeouts + 1)
  | acks, totalAcks, _, a :: rest =>
    let st := ackStep seq acks a
    recvAcksPhase seq st.1 (totalAcks + if st.2 then 1 else 0) 0 rest

/-- Iterated ack phases that each time out with zero datagrams read
(consecutive empty `recvAcks` calls), threading the persistent
`totalTimeouts` counter; `none` once a phase aborts the transfer. -/
def emptyPhases (seq : Int) (acks : List Bool) : Nat → Nat → Option Nat
  | 0, t => some t
  | k + 1, t =>
    match recvAcksPhase seq acks 0 t [] with
    | none => none
    | some (_, _, t') => emptyPhases seq acks k t'

/-- The `while (totalAcks != numberOfPackets)` loop of `sendPackets`
(sender.c lines 154-184): each round transmits a sweep of the un-acked
slots, then runs one ack phase (consuming the next element of `phases`,
the acks the transport delivers before that phase's closing timeout).
Returns the concatenation of all transmitted datagrams, the final
`totalTimeouts`, and the unconsumed phases; `none` if the sender dies or
runs out of fuel/phases (the driver supplies enough of both). -/
def sendPacketsLoop (buf : List Nat) (seq : Int) (atEof : Bool) :
    Nat → List Bool → Nat → Nat → List (List Int) →
    Option (List Datagram × Nat × List (List Int))
  | 0, _, _, _, _ => none
  | _ + 1, acks, totalAcks, totalTimeouts, phases =>
    if totalAcks = numberOfPackets buf.length then some ([], totalTimeouts, phases)
    else
      match phases with
      | [] => none
      | ph :: phs =>
        match recvAcksPhase seq acks 0 totalTimeouts ph with
        | none => none
        | some (got, acks', t') =>
          match sendPacketsLoop buf seq atEof
              (phases.length) acks' (totalAcks + got) t' phs with
          | none => none
          | some (ds, tEnd, phs') =>
            some (transmitSweep buf seq atEof acks ++ ds, tEnd, phs')

/-- The `feof(file)` indicator as observable by `sendPackets` while sending a chunk: the
flag is set only once an `fread` attempted to read past end-of-file, i.e.
exactly when the `fread` that produced this chunk returned fewer than the
`DATA_SIZE * WINDOW_SIZE` bytes requested. -/
def feofAfterRead (chunk : List Nat) : Bool :=
  decide (chunk.length < DATA_SIZE * WINDOW_SIZE)

/-- Sender's sequence-base advance (sender.c lines 211-214):
`seq == MAX_START_SEQ ? 0 : seq + WINDOW_SIZE`, with its `MAX_START_SEQ`
defined as `MAX_TIMEOUTS`. -/
def senderAdvanceSeq (seq : Int) : Int :=
  if seq = ((senderMAX_START_SEQ : Nat) : Int) then 0
  else seq + ((WINDOW_SIZE : Nat) : Int)

/-- The `sendFile` read-and-send loop (sender.c lines 198-215) over the
list of chunks `fread` returns (each up to 5000 bytes, the loop stopping
at the first zero-length read), threading the persistent timeout counter
and consuming ack phases window by window. -/
def sendFileAux : List (List Nat) → Int → Nat → List (List Int) →
    Option (List Datagram × Nat)
  | [], _, totalTimeouts, _ => some ([], totalTimeouts)
  | c :: cs, seq, totalTimeouts, phases =>
    match sendPacketsLoop c seq (feofAfterRead c) (phases.length + 1)
        (List.replicate WINDOW_SIZE false) 0 totalTimeouts phases with
    | none => none
    | some (ds, t', phs') =>
      match sendFileAux cs (senderAdvanceSeq seq) t' phs' with
      | none => none
      | some (ds', tEnd) => some (ds ++ ds', tEnd)

/-- The successive chunks `fread(buf, 1, DATA_SIZE * WINDOW_SIZE, file)`
returns for a file with content `P`: full 5000-byte chunks, then the
(possibly shorter, possibly absent) remainder; the loop's terminating
zero-length read produces no chunk. -/
def chunkFile (P : List Nat) : List (List Nat) :=
  if h : P = [] then []
  else
    P.take (DATA_SIZE * WINDOW_SIZE) :: chunkFile (P.drop (DATA_SIZE * WINDOW_SIZE))
termination_by P.length
decreasing_by
  simp only [List.length_drop]
  have : 0 < P.length := List.length_pos.mpr h
  simp [DATA_SIZE, WINDOW_SIZE]
  omega

/-- Whole sender run on file content `P`, given the per-round ack phases
the transport delivers: `some (trace, t)` with all transmitted datagrams
in order and the final timeout counter, `none` if the sender aborts. -/
def sendFileRun (P : List Nat) (phases : List (List Int)) :
    Option (List Datagram × Nat) :=
  sendFileAux (chunkFile P) 0 0 phases

/-- Datagram trace of a sender that completes every window in a single
round (no loss): one full sweep per chunk with a fresh ack array. -/
def senderTraceAux : List (List Nat) → Int → List Datagram
  | [], _ => []
  | c :: cs, seq =>
    transmitSweep c seq (feofAfterRead c) (List.replicate WINDOW_SIZE false)
      ++ senderTraceAux cs (senderAdvanceSeq seq)

/-- Datagram trace of the sender for file content `P` under a transport
that never loses anything. -/
def senderTrace (P : List Nat) : List Datagram := senderTraceAux (chunkFile P) 0

/-- The ack phases a perfect transport delivers: per window, the receiver
acks each of the window's packets in order, and all acks arrive before the
sender's phase-ending timeout. -/
def perfectAckPhases : List (List Nat) → Int → List (List Int)
  | [], _ => []
  | c :: cs, seq =>
    ((List.range (numberOfPackets c.length)).map (seqNoOfSlot seq))
      :: perfectAckPhases cs (senderAdvanceSeq seq)

/-- Sequence bases the sender's session steps through, starting at 0. -/
def seqIterSender : Nat → Int
  | 0 => 0
  | n + 1 => senderAdvanceSeq (seqIterSender n)

/-- Sequence bases the receiver's session steps through, starting at 0. -/
def seqIterReceiver : Nat → Int
  | 0 => 0
  | n + 1 => receiverAdvanceSeq (seqIterReceiver n)

/-- One past the last byte of `packet` written by the payload copy
`memcpy(packet + HEADER_SIZE, buf + bufIndex, packetSize)` of
`sendPackets` (sender.c line 167): the copy starts at offset `HEADER_SIZE`
and writes `calculatePacketSize bufSize isLastPacket` bytes. -/
def senderPacketWriteEnd (bufSize : Nat) (isLastPacket : Bool) : Nat :=
  HEADER_SIZE + calculatePacketSize bufSize isLastPacket

/-- The single datagram the perfect-transport model would build for slot
`i` of a window: stored sequence byte, EOF flag
`isLastPacket && feof`, and the chunk slice actually transmitted. -/
def windowPacket (buf : List Nat) (seq : Int) (n : Nat) (atEof : Bool)
    (i : Nat) : Datagram :=
  { seqByte := byteOfInt (seq + (i : Int))
  , eofFlag := decide (i + 1 = n) && atEof
  , payload := (buf.drop (DATA_SIZE * i)).take
      (calculatePacketSize buf.length (decide (i + 1 = n)) - HEADER_SIZE) }

/-! ## Shared helper lemmas -/

lemma getD_set_self (l : List Bool) (i : Nat) (b : Bool) (h : i < l.length) :
    (l.set i b).getD i false = b := by
  simp [List.getD_eq_getElem?_getD, List.getElem?_set_self h]

lemma getD_set_ne (l : List Bool) (i j : Nat) (b : Bool) (h : i ≠ j) :
    (l.set i b).getD j false = l.getD j false := by
  simp [List.getD_eq_getElem?_getD, List.getElem?_set_ne h]

lemma getD_replicate_false (n j : Nat) :
    (List.replicate n false).getD j false = false := by
  simp only [List.getD_eq_getElem?_getD, List.getElem?_replicate]
  split <;> rfl

lemma signedCharOfByte_small (b : Nat) (h : b < 128) :
    signedCharOfByte b = (b : Int) := by
  unfold signedCharOfByte
  rw [Nat.mod_eq_of_lt (by omega)]
  rw [if_pos h]

lemma byteOfInt_of_small (v : Int) (h0 : 0 ≤ v) (h : v < 256) :
    (byteOfInt v : Int) = v := by
  unfold byteOfInt
  omega

lemma signedChar_byteOfInt (v : Int) (h0 : 0 ≤ v) (h : v < 128) :
    signedCharOfByte (byteOfInt v) = v := by
  have hb : (byteOfInt v : Int) = v := byteOfInt_of_small v h0 (by omega)
  have hlt : byteOfInt v < 128 := by omega
  rw [signedCharOfByte_small _ hlt, hb]

lemma inWindow_base_add (seq : Int) (i : Nat) (h : i < WINDOW_SIZE) :
    inWindow (seq + (i : Int)) seq = true := by
  have h10 : i < 10 := by simpa [WINDOW_SIZE] using h
  simp only [inWindow, WINDOW_SIZE, Bool.and_eq_true, decide_eq_true_eq]
  omega

lemma packetNumberOf_base_add (seq : Int) (i : Nat)
    (h0 : 0 ≤ seq) (h10 : seq % 10 = 0) (h : i < 10) :
    packetNumberOf (seq + (i : Int)) = i := by
  unfold packetNumberOf
  rw [Int.tmod_eq_emod (by omega) (by simp [WINDOW_SIZE])]
  simp only [WINDOW_SIZE]
  omega

lemma advanceSeq_eq : ∀ s : Int, senderAdvanceSeq s = receiverAdvanceSeq s := by
  intro s
  simp [senderAdvanceSeq, receiverAdvanceSeq, senderMAX_START_SEQ,
    MAX_TIMEOUTS, MAX_START_SEQ]

lemma seqIterSender_mult : ∀ n : Nat, ∃ k ≤ 10, seqIterSender n = 10 * k := by
  intro n
  induction n with
  | zero => exact ⟨0, by omega, rfl⟩
  | succ m ih =>
    obtain ⟨k, hk, heq⟩ := ih
    unfold seqIterSender senderAdvanceSeq
    rw [heq]
    simp only [senderMAX_START_SEQ, MAX_TIMEOUTS, WINDOW_SIZE]
    by_cases h : (10 * k : Int) = 100
    · exact ⟨0, by omega, by rw [if_pos (by exact_mod_cast h)]; simp⟩
    · refine ⟨k + 1, by omega, ?_⟩
      rw [if_neg (by exact_mod_cast h)]
      push_cast
      ring

/-- A phase that has just consumed a datagram (`totalTimeouts` reset to 0)
ends, if it returns, with the counter equal to 1. -/
lemma recvAcksPhase_timeouts_after_ack (seq : Int) :
    ∀ (l : List Int) (acks : List Bool) (ta : Nat) (r : Nat × List Bool × Nat),
      recvAcksPhase seq acks ta 0 l = some r → r.2.2 = 1 := by
  intro l
  induction l with
  | nil =>
    intro acks ta r h
    unfold recvAcksPhase at h
    rw [if_neg (by simp [MAX_TIMEOUTS])] at h
    cases h
    rfl
  | cons a rest ih =>
    intro acks ta r h
    unfold recvAcksPhase at h
    exact ih _ _ r h

/-- A phase that has just consumed a datagram never aborts. -/
lemma recvAcksPhase_after_ack_some (seq : Int) :
    ∀ (l : List Int) (acks : List Bool) (ta : Nat),
      ∃ r, recvAcksPhase seq acks ta 0 l = some r := by
  intro l
  induction l with
  | nil =>
    intro acks ta
    refine ⟨(ta, acks, 1), ?_⟩
    unfold recvAcksPhase
    rw [if_neg (by simp [MAX_TIMEOUTS])]
  | cons a rest ih =>
    intro acks ta
    unfold recvAcksPhase
    exact ih _ _

/-! ## C10 — sender payload copy overflows the packet buffer (code bug) -/

/-- C10: the claim says every payload copy into the 502-byte `packet`
buffer writes at most `PACKET_SIZE - HEADER_SIZE` bytes, never past the
end.  The code's `memcpy(packet + HEADER_SIZE, buf + bufIndex, packetSize)`
writes `packetSize` bytes starting at offset `HEADER_SIZE`: for a full
500-byte payload (e.g. `bufSize = 500`, last packet) the write extends to
offset 504, two bytes past the 502-byte buffer. -/
theorem sender_payload_copy_overflows :
    senderPacketWriteEnd 500 true = 504 ∧ PACKET_SIZE = 502 ∧
    PACKET_SIZE < senderPacketWriteEnd 500 true := by decide

/-! ## C9 — sequence byte round-trip (corrected: signed char) -/

/-- C9 counterexample: byte value 200 stored as the sequence byte reads
back as -56 on the peer (plain `char` is signed 8-bit on the target), not
200, refuting round-tripping over the full 0..255 range. -/
theorem seq_byte_200_fails_round_trip :
    signedCharOfByte 200 = -56 ∧ (-56 : Int) ≠ (200 : Int) := by decide

/-- C9 amended: the sequence-number byte round-trips exactly on 0..127
(which covers every sequence number 0..109 the protocol uses); bytes
128..255 read back as the value minus 256. -/
theorem seq_byte_round_trip (n : Nat) (h : n ≤ 255) :
    (n ≤ 127 → signedCharOfByte n = (n : Int)) ∧
    (128 ≤ n → signedCharOfByte n = (n : Int) - 256) := by
  constructor
  · intro h2
    exact signedCharOfByte_small n (by omega)
  · intro h2
    unfold signedCharOfByte
    rw [Nat.mod_eq_of_lt (by omega)]
    rw [if_neg (by omega)]

/-- Witness for `seq_byte_round_trip` at `n = 5`. -/
theorem seq_byte_round_trip_witness :
    (5 : Nat) ≤ 255 ∧
      ((5 ≤ 127 → signedCharOfByte 5 = ((5 : Nat) : Int)) ∧
       (128 ≤ 5 → signedCharOfByte 5 = ((5 : Nat) : Int) - 256)) :=
  ⟨by decide, seq_byte_round_trip 5 (by decide)⟩

/-! ## C6 — ack processing is idempotent (confirmed) -/

/-- C6: an ack that is stale (outside the current window) or whose slot is
already marked acked leaves the sender's flag array unchanged and is not
counted, so duplicates never double-count toward window completion. -/
theorem ack_processing_idempotent (seq : Int) (acks : List Bool) (a : Int)
    (h : inWindow a seq = false ∨ acks.getD (packetNumberOf a) false = true) :
    ackStep seq acks a = (acks, false) := by
  rcases h with h | h
  · simp only [ackStep, h, Bool.false_and, Bool.false_eq_true, if_false]
  · simp only [ackStep, h, Bool.not_true, Bool.and_false, Bool.false_eq_true,
      if_false]

/-- Witness for `ack_processing_idempotent`: slot 0 already acked. -/
theorem ack_processing_idempotent_witness :
    (inWindow 0 0 = false ∨ ([true] : List Bool).getD (packetNumberOf 0) false = true) ∧
      ackStep 0 [true] 0 = ([true], false) :=
  ⟨Or.inr (by decide), ack_processing_idempotent 0 [true] 0 (Or.inr (by decide))⟩

/-! ## C7 — retry counter across phases (corrected) -/

/-- C7 counterexample: a phase that receives one ack (from a fresh counter)
ends with the persistent timeout counter equal to 1, not 0: the timeout
that terminates the phase increments it after the last reset. -/
theorem retry_counter_not_zero_after_ack :
    (recvAcksPhase 0 (List.replicate 10 false) 0 0 [0]).map (fun r => r.2.2)
      = some 1 ∧ (1 : Nat) ≠ 0 := by decide

/-- C7 amended: the counter is incremented by the timeout terminating
every receive phase — a phase reading zero datagrams turns counter `t`
into `t + 1`, and a phase reading at least one ack ends with the counter
equal to 1 (reset to 0 at each arrival, then incremented once by the
phase-ending timeout), not 0. -/
theorem retry_counter_behavior (seq : Int) (acks : List Bool) (ta t : Nat)
    (a : Int) (l : List Int) :
    (t + 1 ≤ MAX_TIMEOUTS →
      recvAcksPhase seq acks ta t [] = some (ta, acks, t + 1)) ∧
    (∀ r, recvAcksPhase seq acks ta t (a :: l) = some r → r.2.2 = 1) := by
  constructor
  · intro h
    unfold recvAcksPhase
    rw [if_neg (by omega)]
  · intro r h
    unfold recvAcksPhase at h
    exact recvAcksPhase_timeouts_after_ack seq l _ _ r h

/-- Witness for `retry_counter_behavior`. -/
theorem retry_counter_behavior_witness :
    (0 + 1 ≤ MAX_TIMEOUTS ∧
      recvAcksPhase 0 [] 0 0 [] = some (0, [], 0 + 1)) ∧
    ((1 : Nat), ((List.replicate 10 false).set 0 true : List Bool),
        (1 : Nat)).2.2 = 1 :=
  ⟨⟨by decide, (retry_counter_behavior 0 [] 0 0 0 []).1 (by decide)⟩,
   (retry_counter_behavior 0 (List.replicate 10 false) 0 0 0 []).2
     (1, (List.replicate 10 false).set 0 true, 1) (by decide)⟩

/-! ## C3 — abort after consecutive zero-ack rounds (corrected) -/

/-- C3 counterexample: from a fresh transfer (counter 0, no ack ever
received), 100 consecutive zero-ack timeout rounds do NOT abort: the
counter reaches exactly 100 and the sender starts another sweep; the abort
happens only on the 101st consecutive round. -/
theorem hundred_zero_ack_rounds_no_abort :
    emptyPhases 0 (List.replicate 10 false) 100 0 = some 100 := by decide

/-- C3 amended: iterated zero-ack phases from counter `t` abort exactly
when the count of consecutive zero-ack rounds pushes the counter past
`MAX_TIMEOUTS` (so 101 rounds from a fresh counter, 100 rounds once any
ack has ever been received, since every ack-bearing phase ends with the
counter at 1); and a phase in which at least one ack arrives never aborts,
so a transfer whose every phase yields an ack is never aborted. -/
theorem sender_abort_behavior (seq : Int) (acks : List Bool) :
    (∀ k t, t ≤ MAX_TIMEOUTS →
      (emptyPhases seq acks k t = none ↔ MAX_TIMEOUTS < t + k)) ∧
    (∀ (acks' : List Bool) (ta t : Nat) (a : Int) (l : List Int),
      ∃ r, recvAcksPhase seq acks' ta t (a :: l) = some r) := by
  constructor
  · intro k
    induction k with
    | zero =>
      intro t ht
      simp only [emptyPhases, MAX_TIMEOUTS] at *
      constructor
      · intro h; cases h
      · omega
    | succ m ih =>
      intro t ht
      show (match recvAcksPhase seq acks 0 t [] with
        | none => none
        | some (_, _, t') => emptyPhases seq acks m t') = none ↔ _
      unfold recvAcksPhase
      by_cases h : t + 1 > MAX_TIMEOUTS
      · rw [if_pos h]
        simp only [MAX_TIMEOUTS] at *
        constructor
        · intro; omega
        · intro; trivial
      · rw [if_neg h]
        simp only []
        rw [ih (t + 1) (by omega)]
        simp only [MAX_TIMEOUTS] at *
        omega
  · intro acks' ta t a l
    unfold recvAcksPhase
    exact recvAcksPhase_after_ack_some seq l _ _

/-- Witness for `sender_abort_behavior`: 101 zero-ack rounds from a fresh
counter abort; a phase receiving one ack returns normally. -/
theorem sender_abort_behavior_witness :
    (0 ≤ MAX_TIMEOUTS ∧ emptyPhases 0 [] 101 0 = none) ∧
    (∃ r, recvAcksPhase 0 [] 0 0 [(0 : Int)] = some r) :=
  ⟨⟨by decide, ((sender_abort_behavior 0 []).1 101 0 (by decide)).mpr (by decide)⟩,
   (sender_abort_behavior 0 []).2 [] 0 0 0 []⟩

/-- The ack produced by one receiver step always echoes the datagram's
decoded sequence number, whatever the classification. -/
lemma recvStep_snd (seq : Int) (s : RecvState) (d : Datagram) :
    (recvStep seq s d).2 = signedCharOfByte d.seqByte := by
  simp only [recvStep]
  split <;> rfl

/-- Every datagram the receiver loop consumes elicits exactly one ack,
echoing that datagram's decoded sequence number, in order. -/
lemma recvPackets_acks_echo (seq : Int) :
    ∀ (ds : List Datagram) (s : RecvState) (b : Nat) (s' : RecvState)
      (as : List Int) (rest : List Datagram),
      recvPackets seq s ds = some (b, s', as, rest) →
      ∃ pre, ds = pre ++ rest ∧
        as = pre.map (fun d0 => signedCharOfByte d0.seqByte) := by
  intro ds
  induction ds with
  | nil =>
    intro s b s' as rest h
    unfold recvPackets at h
    split at h
    · cases h
      exact ⟨[], rfl, rfl⟩
    · cases h
  | cons d ds0 ih =>
    intro s b s' as rest h
    unfold recvPackets at h
    split at h
    · cases h
      exact ⟨[], rfl, rfl⟩
    · revert h
      cases hrec : recvPackets seq (recvStep seq s d).1 ds0 with
      | none => intro h; cases h
      | some r =>
        obtain ⟨b0, s0, as0, rest0⟩ := r
        intro h
        cases h
        obtain ⟨pre0, hpre, hmap⟩ := ih _ _ _ _ _ hrec
        exact ⟨d :: pre0, by rw [List.cons_append, ← hpre],
          by simp [hmap, recvStep_snd]⟩

/-- Whenever the receiver loop returns, the count of distinct in-window
packets equals `totalPacketsExpected` and the returned byte total is the
state's `bytesReceived`. -/
lemma recvPackets_returns_complete (seq : Int) :
    ∀ (ds : List Datagram) (s : RecvState) (b : Nat) (s' : RecvState)
      (as : List Int) (rest : List Datagram),
      recvPackets seq s ds = some (b, s', as, rest) →
      s'.totalPacketsReceived = s'.totalPacketsExpected ∧
        b = s'.bytesReceived := by
  intro ds
  induction ds with
  | nil =>
    intro s b s' as rest h
    unfold recvPackets at h
    split at h
    · cases h
      exact ⟨by assumption, rfl⟩
    · cases h
  | cons d ds0 ih =>
    intro s b s' as rest h
    unfold recvPackets at h
    split at h
    · cases h
      exact ⟨by assumption, rfl⟩
    · revert h
      cases hrec : recvPackets seq (recvStep seq s d).1 ds0 with
      | none => intro h; cases h
      | some r =>
        obtain ⟨b0, s0, as0, rest0⟩ := r
        intro h
        cases h
        exact ih _ _ _ _ _ hrec

/-! ## C4 — one ack per datagram; stale/duplicate leaves state unchanged
(confirmed) -/

/-- C4: processing any datagram produces exactly one ack echoing its
decoded sequence number (the receive loop emits one ack per consumed
datagram, in order); and when the datagram is stale (out of window) or a
duplicate of an already-received slot, the entire window state — assembly
buffer, byte total, received count, `totalPacketsExpected` — is unchanged. -/
theorem ack_every_datagram (seq : Int) (s : RecvState) (d : Datagram)
    (ds : List Datagram) :
    ((recvStep seq s d).2 = signedCharOfByte d.seqByte) ∧
    ((inWindow (signedCharOfByte d.seqByte) seq = false ∨
      s.packetsReceived.getD (packetNumberOf (signedCharOfByte d.seqByte)) false
        = true) →
      (recvStep seq s d).1 = s) ∧
    (∀ b s' as rest, recvPackets seq s ds = some (b, s', as, rest) →
      ∃ pre, ds = pre ++ rest ∧
        as = pre.map (fun d0 => signedCharOfByte d0.seqByte)) := by
  refine ⟨recvStep_snd seq s d, ?_,
    fun b s' as rest h => recvPackets_acks_echo seq ds s b s' as rest h⟩
  · intro h
    rcases h with h | h
    · simp only [recvStep, h, Bool.false_and, Bool.false_eq_true, if_false]
    · simp only [recvStep, h, Bool.not_true, Bool.and_false, Bool.false_eq_true,
        if_false]

/-- Witness for `ack_every_datagram`: a stale datagram (raw byte 200 reads
back as -56, outside window base 0) is acked and leaves the state intact;
a fresh in-window EOF datagram completes a one-packet window. -/
theorem ack_every_datagram_witness :
    ((recvStep 0 (initRecvState []) ⟨200, false, []⟩).2 = signedCharOfByte 200) ∧
    ((recvStep 0 (initRecvState []) ⟨200, false, []⟩).1 = initRecvState []) ∧
    (∃ pre, ([(⟨0, true, [5]⟩ : Datagram)] : List Datagram) = pre ++ [] ∧
      ([(0 : Int)]) = pre.map (fun d0 => signedCharOfByte d0.seqByte)) :=
  ⟨(ack_every_datagram 0 (initRecvState []) ⟨200, false, []⟩ [⟨0, true, [5]⟩]).1,
   (ack_every_datagram 0 (initRecvState []) ⟨200, false, []⟩ [⟨0, true, [5]⟩]).2.1
     (Or.inl (by decide)),
   (ack_every_datagram 0 (initRecvState []) ⟨200, false, []⟩ [⟨0, true, [5]⟩]).2.2
     1 ⟨1, (List.replicate 10 false).set 0 true, 1, 1, [5], true⟩ [0] []
     (by decide)⟩

/-! ## C5 — EOF packet shrinks `expectedCount`; loop completion (confirmed) -/

/-- C5: a new in-window datagram with the EOF flag sets the session EOF
flag and sets `totalPacketsExpected` to its slot plus 1; the receive loop
returns exactly when the distinct-slot count equals
`totalPacketsExpected` (immediately, consuming nothing more) and the value
returned is the window's assembled byte total. -/
theorem eof_packet_and_completion (seq : Int) (s : RecvState) (d : Datagram)
    (ds : List Datagram) :
    (inWindow (signedCharOfByte d.seqByte) seq = true →
     s.packetsReceived.getD (packetNumberOf (signedCharOfByte d.seqByte)) false
       = false →
     d.eofFlag = true →
     (recvStep seq s d).1.eofOut = true ∧
     (recvStep seq s d).1.totalPacketsExpected
       = packetNumberOf (signedCharOfByte d.seqByte) + 1) ∧
    (∀ b s' as rest, recvPackets seq s ds = some (b, s', as, rest) →
      s'.totalPacketsReceived = s'.totalPacketsExpected ∧
        b = s'.bytesReceived) ∧
    (s.totalPacketsReceived = s.totalPacketsExpected →
      recvPackets seq s ds = some (s.bytesReceived, s, [], ds)) := by
  refine ⟨?_, fun b s' as rest h =>
    recvPackets_returns_complete seq ds s b s' as rest h, ?_⟩
  · intro h1 h2 h3
    simp only [recvStep, h1, h2, h3, Bool.not_false, Bool.and_true, if_true]
    constructor <;> trivial
  · intro h
    cases ds <;> simp only [recvPackets, if_pos h]

/-- Witness for `eof_packet_and_completion`: EOF datagram at slot 3; a
state whose count already equals its expected count returns immediately. -/
theorem eof_packet_and_completion_witness :
    ((recvStep 0 ⟨10, List.replicate 10 false, 10, 0, [], false⟩
        ⟨3, true, [7]⟩).1.eofOut = true ∧
     (recvStep 0 ⟨10, List.replicate 10 false, 10, 0, [], false⟩
        ⟨3, true, [7]⟩).1.totalPacketsExpected
       = packetNumberOf (signedCharOfByte 3) + 1) ∧
    ((10 : Nat) = (10 : Nat) ∧ (0 : Nat) = (0 : Nat)) ∧
    (recvPackets 0 ⟨10, List.replicate 10 false, 10, 0, [], false⟩ []
      = some (0, ⟨10, List.replicate 10 false, 10, 0, [], false⟩, [], [])) :=
  ⟨(eof_packet_and_completion 0 ⟨10, List.replicate 10 false, 10, 0, [], false⟩
      ⟨3, true, [7]⟩ []).1 (by decide) (by decide) rfl,
   (eof_packet_and_completion 0 ⟨10, List.replicate 10 false, 10, 0, [], false⟩
      ⟨3, true, [7]⟩ []).2.1 0
      ⟨10, List.replicate 10 false, 10, 0, [], false⟩ [] [] (by decide),
   (eof_packet_and_completion 0 ⟨10, List.replicate 10 false, 10, 0, [], false⟩
      ⟨3, true, [7]⟩ []).2.2 rfl⟩

/-! ## C8 — sequence-base invariant (confirmed) -/

/-- C8: both endpoints' sequence bases evolve identically; every reachable
base is a multiple of 10 in [0, 100]; the advance is
`base == 100 ? 0 : base + 10`; a window's sequence numbers `base + i`
(i < 10) survive the byte store/load exactly (they stay below 128, so no
wrap distorts them, and the window never straddles the 100-to-0 wrap);
their slot mapping is `i` itself, agreeing with the pre-wrap mapping; and
no just-completed-window sequence number 100..109 ever tests as in-window
for the wrapped base 0. -/
theorem sequence_base_invariant (n : Nat) (base : Int) (i : Nat) (st : Int)
    (hb0 : 0 ≤ base) (hb10 : base % 10 = 0) (hble : base ≤ 100) (hi : i < 10)
    (hst1 : 100 ≤ st) (hst2 : st ≤ 109) :
    (seqIterSender n = seqIterReceiver n) ∧
    (∃ k ≤ 10, seqIterSender n = 10 * k) ∧
    (senderAdvanceSeq base = if base = 100 then 0 else base + 10) ∧
    (signedCharOfByte (byteOfInt (base + (i : Int))) = base + (i : Int)) ∧
    (packetNumberOf (base + (i : Int)) = i) ∧
    (inWindow st 0 = false) := by
  refine ⟨?_, seqIterSender_mult n, ?_, ?_, ?_, ?_⟩
  · induction n with
    | zero => rfl
    | succ m ihm =>
      show senderAdvanceSeq (seqIterSender m) = receiverAdvanceSeq (seqIterReceiver m)
      rw [ihm, advanceSeq_eq]
  · simp [senderAdvanceSeq, senderMAX_START_SEQ, MAX_TIMEOUTS, WINDOW_SIZE]
  · exact signedChar_byteOfInt _ (by omega) (by omega)
  · exact packetNumberOf_base_add base i hb0 hb10 hi
  · have h : ¬(st ≤ 0 + ((WINDOW_SIZE : Nat) : Int) - 1) := by
      simp only [WINDOW_SIZE]; omega
    simp only [inWindow, h]
    simp

/-- Witness for `sequence_base_invariant` at the wrap: 11 advances return
the base to 0; base 100 with slot 9 is sequence number 109. -/
theorem sequence_base_invariant_witness :
    ((0 : Int) ≤ 100 ∧ (100 : Int) % 10 = 0 ∧ (100 : Int) ≤ 100 ∧ (9 : Nat) < 10 ∧
      (100 : Int) ≤ 105 ∧ (105 : Int) ≤ 109) ∧
    ((seqIterSender 11 = seqIterReceiver 11) ∧
     (∃ k ≤ 10, seqIterSender 11 = 10 * k) ∧
     (senderAdvanceSeq 100 = if (100 : Int) = 100 then 0 else 100 + 10) ∧
     (signedCharOfByte (byteOfInt (100 + ((9 : Nat) : Int))) = 100 + ((9 : Nat) : Int)) ∧
     (packetNumberOf (100 + ((9 : Nat) : Int)) = 9) ∧
     (inWindow 105 0 = false)) :=
  ⟨⟨by decide, by decide, by decide, by decide, by decide, by decide⟩,
   sequence_base_invariant 11 100 9 105 (by decide) (by decide) (by decide)
     (by decide) (by decide) (by decide)⟩

/-! ## Machinery for the end-to-end transfer claims -/

lemma chunkFile_nil : chunkFile [] = [] := by
  unfold chunkFile
  simp

lemma chunkFile_cons (P : List Nat) (h : P ≠ []) :
    chunkFile P =
      P.take (DATA_SIZE * WINDOW_SIZE) :: chunkFile (P.drop (DATA_SIZE * WINDOW_SIZE)) := by
  conv_lhs => unfold chunkFile
  simp [h]

lemma chunkFile_ne_nil (P : List Nat) (h : P ≠ []) : chunkFile P ≠ [] := by
  rw [chunkFile_cons P h]
  simp

lemma chunkFile_flatten_bounded : ∀ (n : Nat) (P : List Nat), P.length ≤ n →
    (chunkFile P).flatten = P := by
  intro n
  induction n with
  | zero =>
    intro P hP
    have : P = [] := List.length_eq_zero.mp (by omega)
    subst this
    simp [chunkFile_nil]
  | succ m ih =>
    intro P hP
    by_cases h : P = []
    · subst h; simp [chunkFile_nil]
    · rw [chunkFile_cons P h, List.flatten_cons]
      have hpos : 0 < P.length := List.length_pos.mpr h
      rw [ih (P.drop (DATA_SIZE * WINDOW_SIZE))
        (by rw [List.length_drop]; simp only [DATA_SIZE, WINDOW_SIZE]; omega)]
      exact List.take_append_drop _ P

lemma chunkFile_flatten (P : List Nat) : (chunkFile P).flatten = P :=
  chunkFile_flatten_bounded P.length P le_rfl

lemma chunkFile_mem_len_bounded : ∀ (n : Nat) (P : List Nat), P.length ≤ n →
    ∀ c ∈ chunkFile P, 1 ≤ c.length ∧ c.length ≤ DATA_SIZE * WINDOW_SIZE := by
  intro n
  induction n with
  | zero =>
    intro P hP c hc
    have : P = [] := List.length_eq_zero.mp (by omega)
    subst this
    rw [chunkFile_nil] at hc
    cases hc
  | succ m ih =>
    intro P hP c hc
    by_cases h : P = []
    · subst h; rw [chunkFile_nil] at hc; cases hc
    · rw [chunkFile_cons P h] at hc
      have hpos : 0 < P.length := List.length_pos.mpr h
      rcases List.mem_cons.mp hc with hc | hc
      · subst hc
        rw [List.length_take]
        simp only [DATA_SIZE, WINDOW_SIZE]
        omega
      · exact ih (P.drop (DATA_SIZE * WINDOW_SIZE))
          (by rw [List.length_drop]; simp only [DATA_SIZE, WINDOW_SIZE]; omega) c hc

lemma chunkFile_mem_len (P : List Nat) :
    ∀ c ∈ chunkFile P, 1 ≤ c.length ∧ c.length ≤ DATA_SIZE * WINDOW_SIZE :=
  chunkFile_mem_len_bounded P.length P le_rfl

lemma chunkFile_dropLast_bounded : ∀ (n : Nat) (P : List Nat), P.length ≤ n →
    ∀ c ∈ (chunkFile P).dropLast, c.length = DATA_SIZE * WINDOW_SIZE := by
  intro n
  induction n with
  | zero =>
    intro P hP c hc
    have : P = [] := List.length_eq_zero.mp (by omega)
    subst this
    rw [chunkFile_nil] at hc
    cases hc
  | succ m ih =>
    intro P hP c hc
    by_cases h : P = []
    · subst h; rw [chunkFile_nil] at hc; cases hc
    · rw [chunkFile_cons P h] at hc
      have hpos : 0 < P.length := List.length_pos.mpr h
      by_cases hd : P.drop (DATA_SIZE * WINDOW_SIZE) = []
      · rw [hd, chunkFile_nil] at hc
        simp [List.dropLast] at hc
      · have hne := chunkFile_ne_nil _ hd
        obtain ⟨c2, cs2, hcs⟩ := List.exists_cons_of_ne_nil hne
        rw [hcs, List.dropLast_cons₂] at hc
        rcases List.mem_cons.mp hc with hc | hc
        · subst hc
          rw [List.length_take]
          have hlen : DATA_SIZE * WINDOW_SIZE < P.length := by
            have h1 := List.length_drop (DATA_SIZE * WINDOW_SIZE) P
            have hdp : 0 < (P.drop (DATA_SIZE * WINDOW_SIZE)).length :=
              List.length_pos.mpr hd
            omega
          omega
        · have := ih (P.drop (DATA_SIZE * WINDOW_SIZE))
            (by rw [List.length_drop]; simp only [DATA_SIZE, WINDOW_SIZE]; omega) c
          rw [hcs] at this
          exact this hc

lemma chunkFile_dropLast_full (P : List Nat) :
    ∀ c ∈ (chunkFile P).dropLast, c.length = DATA_SIZE * WINDOW_SIZE :=
  chunkFile_dropLast_bounded P.length P le_rfl

lemma chunkFile_getLast_bounded : ∀ (n : Nat) (P : List Nat), P.length ≤ n →
    P.length % (DATA_SIZE * WINDOW_SIZE) ≠ 0 →
    ∀ c, (chunkFile P).getLast? = some c →
      1 ≤ c.length ∧ c.length < DATA_SIZE * WINDOW_SIZE := by
  intro n
  induction n with
  | zero =>
    intro P hP hmod c hc
    have : P = [] := List.length_eq_zero.mp (by omega)
    subst this
    rw [chunkFile_nil] at hc
    cases hc
  | succ m ih =>
    intro P hP hmod c hc
    by_cases h : P = []
    · subst h; rw [chunkFile_nil] at hc; cases hc
    · rw [chunkFile_cons P h] at hc
      have hpos : 0 < P.length := List.length_pos.mpr h
      by_cases hd : P.drop (DATA_SIZE * WINDOW_SIZE) = []
      · rw [hd, chunkFile_nil, List.getLast?_singleton] at hc
        cases hc
        have hle : P.length ≤ DATA_SIZE * WINDOW_SIZE := by
          have h1 := List.length_drop (DATA_SIZE * WINDOW_SIZE) P
          rw [hd] at h1
          simp at h1
          omega
        rw [List.length_take]
        simp only [DATA_SIZE, WINDOW_SIZE] at *
        omega
      · have hne := chunkFile_ne_nil _ hd
        obtain ⟨c2, cs2, hcs⟩ := List.exists_cons_of_ne_nil hne
        rw [hcs, List.getLast?_cons_cons] at hc
        have hgt : DATA_SIZE * WINDOW_SIZE ≤ P.length := by
          by_contra hlt
          push_neg at hlt
          exact hd (List.drop_eq_nil_of_le (by omega))
        have hmod' : (P.drop (DATA_SIZE * WINDOW_SIZE)).length
            % (DATA_SIZE * WINDOW_SIZE) ≠ 0 := by
          rw [List.length_drop]
          simp only [DATA_SIZE, WINDOW_SIZE] at *
          omega
        have := ih (P.drop (DATA_SIZE * WINDOW_SIZE))
          (by rw [List.length_drop]; simp only [DATA_SIZE, WINDOW_SIZE]; omega)
          hmod' c
        rw [hcs] at this
        exact this hc

lemma chunkFile_getLast_short (P : List Nat)
    (hmod : P.length % (DATA_SIZE * WINDOW_SIZE) ≠ 0) :
    ∀ c, (chunkFile P).getLast? = some c →
      1 ≤ c.length ∧ c.length < DATA_SIZE * WINDOW_SIZE :=
  chunkFile_getLast_bounded P.length P le_rfl hmod

/-- Bounds for `numberOfPackets` and the byte arithmetic of the last packet. -/
lemma numberOfPackets_pos (L : Nat) (h : 1 ≤ L) : 1 ≤ numberOfPackets L := by
  unfold numberOfPackets
  split <;> simp only [DATA_SIZE] at * <;> omega

lemma numberOfPackets_le (L : Nat) (h : L ≤ DATA_SIZE * WINDOW_SIZE) :
    numberOfPackets L ≤ WINDOW_SIZE := by
  unfold numberOfPackets
  split <;> simp only [DATA_SIZE, WINDOW_SIZE] at * <;> omega

lemma numberOfPackets_lower (L : Nat) (h : 1 ≤ L) :
    DATA_SIZE * (numberOfPackets L - 1) < L := by
  unfold numberOfPackets
  split <;> simp only [DATA_SIZE] at * <;> omega

lemma numberOfPackets_upper (L : Nat) :
    L ≤ DATA_SIZE * numberOfPackets L := by
  unfold numberOfPackets
  split <;> simp only [DATA_SIZE] at * <;> omega

lemma numberOfPackets_full : numberOfPackets (DATA_SIZE * WINDOW_SIZE) = WINDOW_SIZE := by
  decide

lemma calculatePacketSize_not_last (L : Nat) :
    calculatePacketSize L false - HEADER_SIZE = DATA_SIZE := by
  simp [calculatePacketSize, PACKET_SIZE, HEADER_SIZE, DATA_SIZE]

lemma calculatePacketSize_last (L : Nat) (h : 1 ≤ L) :
    calculatePacketSize L true - HEADER_SIZE
      = L - DATA_SIZE * (numberOfPackets L - 1) := by
  simp only [calculatePacketSize, numberOfPackets, if_true]
  by_cases hm : L % DATA_SIZE = 0 <;>
    simp only [hm, if_true, if_false, ne_eq, not_true_eq_false, not_false_eq_true,
      ite_true, ite_false] <;>
    simp only [DATA_SIZE, HEADER_SIZE, PACKET_SIZE] at * <;> omega

/-- Writing the chunk slice `[off, off+len)` into a buffer whose first
`off` bytes are already the chunk's extends the assembled prefix. -/
lemma memcpyAt_assemble (buf g : List Nat) (off len : Nat)
    (h : off + len ≤ buf.length) :
    memcpyAt (buf.take off ++ g.drop off) off ((buf.drop off).take len)
      = buf.take (off + len) ++ g.drop (off + len) := by
  unfold memcpyAt
  have hlenoff : (buf.take off).length = off := by
    rw [List.length_take]
    omega
  have hlensrc : ((buf.drop off).take len).length = len := by
    rw [List.length_take, List.length_drop]
    omega
  have h1 : (buf.take off ++ g.drop off).take off = buf.take off := by
    rw [List.take_append_of_le_length (by omega), List.take_take]
    simp
  have h2 : (buf.take off ++ g.drop off).drop (off + len) = g.drop (off + len) := by
    have heq : off + len = (buf.take off).length + len := by omega
    rw [heq, List.drop_append, List.drop_drop, hlenoff]
  rw [hlensrc, h1, h2, ← List.take_add]

/-- A sweep with a fresh (all-false) ack array emits exactly one datagram
per slot, in slot order. -/
lemma sweepFrom_fresh (buf : List Nat) (seq : Int) (atEof : Bool) :
    ∀ (m k : Nat), k + m = numberOfPackets buf.length →
      sweepFrom buf seq (numberOfPackets buf.length) atEof
          (List.replicate WINDOW_SIZE false) (List.range' k m) (DATA_SIZE * k)
        = (List.range' k m).map
            (windowPacket buf seq (numberOfPackets buf.length) atEof) := by
  intro m
  induction m with
  | zero =>
    intro k hk
    simp [sweepFrom]
  | succ m' ih =>
    intro k hk
    have hkd : (List.replicate WINDOW_SIZE false).getD k false = false :=
      getD_replicate_false _ _
    rw [List.range'_succ, List.map_cons]
    simp only [sweepFrom, hkd, Bool.false_eq_true, if_false]
    congr 1
    cases m' with
    | zero => simp [sweepFrom]
    | succ m2 =>
      have hne : decide (k + 1 = numberOfPackets buf.length) = false := by
        simp only [decide_eq_false_iff_not]
        omega
      rw [hne, calculatePacketSize_not_last, ← Nat.mul_succ]
      exact ih (k + 1) (by omega)

/-- The first sweep of a window transmits slots `0..n-1` as `windowPacket`s. -/
lemma transmitSweep_fresh (buf : List Nat) (seq : Int) (atEof : Bool) :
    transmitSweep buf seq atEof (List.replicate WINDOW_SIZE false)
      = (List.range (numberOfPackets buf.length)).map
          (windowPacket buf seq (numberOfPackets buf.length) atEof) := by
  unfold transmitSweep
  rw [List.range_eq_range']
  have h := sweepFrom_fresh buf seq atEof (numberOfPackets buf.length) 0 (by omega)
  simpa using h

/-- An ack phase delivering the current window's acks `seq+k .. seq+n-1`
in order, onto an ack array whose slots below `k` are set, counts each of
them once and ends with the timeout counter at 1. -/
lemma recvAcksPhase_perfect (seq : Int) (h0 : 0 ≤ seq) (h10 : seq % 10 = 0) :
    ∀ (m k : Nat) (acks : List Bool) (ta t0 : Nat),
      k + m ≤ WINDOW_SIZE →
      (t0 = 0 ∨ 1 ≤ m) →
      acks.length = WINDOW_SIZE →
      (∀ j, acks.getD j false = decide (j < k)) →
      ∃ acksF, recvAcksPhase seq acks ta t0
          ((List.range' k m).map (seqNoOfSlot seq))
        = some (ta + m, acksF, 1) := by
  intro m
  induction m with
  | zero =>
    intro k acks ta t0 hk ht hlen hinv
    rcases ht with ht | ht
    · subst ht
      refine ⟨acks, ?_⟩
      show recvAcksPhase seq acks ta 0 [] = _
      unfold recvAcksPhase
      rw [if_neg (by simp [MAX_TIMEOUTS])]
      simp
    · omega
  | succ m' ih =>
    intro k acks ta t0 hk ht hlen hinv
    have hk10 : k < 10 := by simp only [WINDOW_SIZE] at hk; omega
    have hin : inWindow (seq + (k : Int)) seq = true :=
      inWindow_base_add seq k (by simp only [WINDOW_SIZE]; omega)
    have hpn : packetNumberOf (seq + (k : Int)) = k :=
      packetNumberOf_base_add seq k h0 h10 hk10
    have hgd : acks.getD k false = false := by
      rw [hinv k]
      simp
    have hstep : ackStep seq acks (seqNoOfSlot seq k) = (acks.set k true, true) := by
      simp only [ackStep, seqNoOfSlot, hpn, hin, hgd, Bool.not_false,
        Bool.and_true, if_true]
    have hinv' : ∀ j, (acks.set k true).getD j false = decide (j < k + 1) := by
      intro j
      by_cases hj : k = j
      · subst hj
        rw [getD_set_self _ _ _ (by rw [hlen]; simp only [WINDOW_SIZE]; omega)]
        simp
      · rw [getD_set_ne _ _ _ _ hj, hinv j]
        simp only [decide_eq_decide]
        omega
    obtain ⟨acksF, hF⟩ := ih (k + 1) (acks.set k true) (ta + 1) 0
      (by omega) (Or.inl rfl) (by rw [List.length_set, hlen]) hinv'
    refine ⟨acksF, ?_⟩
    rw [List.range'_succ, List.map_cons]
    show recvAcksPhase seq (ackStep seq acks (seqNoOfSlot seq k)).1
        (ta + if (ackStep seq acks (seqNoOfSlot seq k)).2 then 1 else 0) 0 _ = _
    rw [hstep]
    simp only [if_true]
    rw [show ta + (m' + 1) = ta + 1 + m' by omega]
    exact hF

/-- Evaluating one receiver step on a fresh in-window packet for slot `k`. -/
lemma recvStep_fresh (seq : Int) (S : RecvState) (k : Nat) (flag : Bool)
    (pay : List Nat)
    (h0 : 0 ≤ seq) (h10 : seq % 10 = 0) (hle : seq ≤ 100) (hk : k < 10)
    (hflags : S.packetsReceived.getD k false = false) :
    recvStep seq S ⟨byteOfInt (seq + (k : Int)), flag, pay⟩ =
      ({ totalPacketsExpected := if flag then k + 1 else S.totalPacketsExpected
       , packetsReceived := S.packetsReceived.set k true
       , totalPacketsReceived := S.totalPacketsReceived + 1
       , bytesReceived := S.bytesReceived + pay.length
       , bufOut := memcpyAt S.bufOut (k * DATA_SIZE) pay
       , eofOut := if flag then true else S.eofOut }, seq + (k : Int)) := by
  have hsc : signedCharOfByte (byteOfInt (seq + (k : Int))) = seq + (k : Int) :=
    signedChar_byteOfInt _ (by omega) (by omega)
  have hin : inWindow (seq + (k : Int)) seq = true :=
    inWindow_base_add seq k (by simp only [WINDOW_SIZE]; omega)
  have hpn : packetNumberOf (seq + (k : Int)) = k :=
    packetNumberOf_base_add seq k h0 h10 hk
  simp only [recvStep, hsc, hpn, hin, hflags, Bool.not_false, Bool.and_true,
    if_true]

/-- Once the received count equals the expected count, the receive loop
returns immediately, consuming nothing. -/
lemma recvPackets_immediate (seq : Int) (s : RecvState) (ds : List Datagram)
    (h : s.totalPacketsReceived = s.totalPacketsExpected) :
    recvPackets seq s ds = some (s.bytesReceived, s, [], ds) := by
  cases ds <;> simp only [recvPackets, if_pos h]

/-- With the window incomplete and no datagram left, the receiver blocks. -/
lemma recvPackets_blocked (seq : Int) (s : RecvState)
    (h : s.totalPacketsReceived ≠ s.totalPacketsExpected) :
    recvPackets seq s [] = none := by
  simp only [recvPackets, if_neg h]

/-- The sequence-base advance preserves the base invariant. -/
lemma senderAdvanceSeq_props (s : Int) (h0 : 0 ≤ s) (h10 : s % 10 = 0)
    (hle : s ≤ 100) :
    0 ≤ senderAdvanceSeq s ∧ senderAdvanceSeq s % 10 = 0 ∧
      senderAdvanceSeq s ≤ 100 := by
  by_cases h : s = ((senderMAX_START_SEQ : Nat) : Int)
  · rw [senderAdvanceSeq, if_pos h]
    refine ⟨by omega, by omega, by omega⟩
  · rw [senderAdvanceSeq, if_neg h]
    simp only [senderMAX_START_SEQ, MAX_TIMEOUTS] at h
    simp only [WINDOW_SIZE]
    push_cast at h ⊢
    omega

/-- Under a perfect transport the `sendPackets` loop finishes in one
round: one full sweep, then a phase delivering all of the window's acks. -/
lemma sendPacketsLoop_perfect (buf : List Nat) (seq : Int) (atEof : Bool)
    (h1 : 1 ≤ buf.length) (h2 : buf.length ≤ DATA_SIZE * WINDOW_SIZE)
    (h0 : 0 ≤ seq) (h10 : seq % 10 = 0) (t : Nat) (phs : List (List Int)) :
    sendPacketsLoop buf seq atEof (phs.length + 2)
        (List.replicate WINDOW_SIZE false) 0 t
        (((List.range (numberOfPackets buf.length)).map (seqNoOfSlot seq)) :: phs)
      = some (transmitSweep buf seq atEof (List.replicate WINDOW_SIZE false),
          1, phs) := by
  have hn1 : 1 ≤ numberOfPackets buf.length := numberOfPackets_pos _ h1
  have hn10 : numberOfPackets buf.length ≤ WINDOW_SIZE := numberOfPackets_le _ h2
  obtain ⟨acksF, hF⟩ := recvAcksPhase_perfect seq h0 h10
    (numberOfPackets buf.length) 0 (List.replicate WINDOW_SIZE false) 0 t
    (by omega) (Or.inr hn1) (by simp)
    (fun j => by rw [getD_replicate_false]; simp)
  have hrec : sendPacketsLoop buf seq atEof (phs.length + 1) acksF
      (0 + (0 + numberOfPackets buf.length)) 1 phs = some ([], 1, phs) := by
    unfold sendPacketsLoop
    rw [if_pos (by omega)]
  rw [List.range_eq_range']
  unfold sendPacketsLoop
  rw [if_neg (by omega)]
  simp only [List.length_cons]
  rw [hF]
  simp only []
  rw [hrec]
  simp only [List.append_nil]

/-- Under a perfect transport the whole sender terminates, transmitting
exactly one sweep per window. -/
lemma sendFileAux_perfect :
    ∀ (cs : List (List Nat)) (seq : Int) (t : Nat),
      (∀ c ∈ cs, 1 ≤ c.length ∧ c.length ≤ DATA_SIZE * WINDOW_SIZE) →
      0 ≤ seq → seq % 10 = 0 → seq ≤ 100 →
      ∃ t', sendFileAux cs seq t (perfectAckPhases cs seq)
        = some (senderTraceAux cs seq, t') := by
  intro cs
  induction cs with
  | nil =>
    intro seq t _ _ _ _
    exact ⟨t, rfl⟩
  | cons c cs ih =>
    intro seq t hmem h0 h10 hle
    obtain ⟨hc1, hc2⟩ := hmem c (List.mem_cons_self c cs)
    obtain ⟨ha0, ha10, hale⟩ := senderAdvanceSeq_props seq h0 h10 hle
    obtain ⟨t', hIH⟩ := ih (senderAdvanceSeq seq) 1
      (fun c' hc' => hmem c' (List.mem_cons_of_mem c hc')) ha0 ha10 hale
    refine ⟨t', ?_⟩
    show (match sendPacketsLoop c seq (feofAfterRead c)
        ((((List.range (numberOfPackets c.length)).map (seqNoOfSlot seq))
            :: perfectAckPhases cs (senderAdvanceSeq seq)).length + 1)
        (List.replicate WINDOW_SIZE false) 0 t
        (((List.range (numberOfPackets c.length)).map (seqNoOfSlot seq))
            :: perfectAckPhases cs (senderAdvanceSeq seq)) with
      | none => none
      | some (ds, t', phs') =>
        match sendFileAux cs (senderAdvanceSeq seq) t' phs' with
        | none => none
        | some (ds', tEnd) => some (ds ++ ds', tEnd)) = _
    simp only [List.length_cons]
    rw [sendPacketsLoop_perfect c seq (feofAfterRead c) hc1 hc2 h0 h10 t
      (perfectAckPhases cs (senderAdvanceSeq seq))]
    simp only []
    rw [hIH]
    rfl

/-- Setting slot `k` in a flag array whose set slots are exactly those
below `k` yields the array whose set slots are exactly those below `k+1`. -/
lemma flags_inv_step (l : List Bool) (k : Nat) (hlen : l.length = WINDOW_SIZE)
    (hk : k < 10) (hinv : ∀ j, l.getD j false = decide (j < k)) :
    ∀ j, (l.set k true).getD j false = decide (j < k + 1) := by
  intro j
  by_cases hj : k = j
  · subst hj
    rw [getD_set_self _ _ _ (by rw [hlen]; simp only [WINDOW_SIZE]; omega)]
    simp
  · rw [getD_set_ne _ _ _ _ hj, hinv j]
    simp only [decide_eq_decide]
    omega

/-- One receiver step on the window packet for slot `k`, stated against
`windowPacket` directly. -/
lemma recvStep_window (buf : List Nat) (seq : Int) (n : Nat) (atEof : Bool)
    (S : RecvState) (k : Nat)
    (h0 : 0 ≤ seq) (h10 : seq % 10 = 0) (hle : seq ≤ 100) (hk : k < 10)
    (hflags : S.packetsReceived.getD k false = false) :
    recvStep seq S (windowPacket buf seq n atEof k) =
      ({ totalPacketsExpected :=
           if decide (k + 1 = n) && atEof then k + 1 else S.totalPacketsExpected
       , packetsReceived := S.packetsReceived.set k true
       , totalPacketsReceived := S.totalPacketsReceived + 1
       , bytesReceived :=
           S.bytesReceived + (windowPacket buf seq n atEof k).payload.length
       , bufOut := memcpyAt S.bufOut (k * DATA_SIZE)
           (windowPacket buf seq n atEof k).payload
       , eofOut := if decide (k + 1 = n) && atEof then true else S.eofOut },
       seqNoOfSlot seq k) :=
  recvStep_fresh seq S k (decide (k + 1 = n) && atEof)
    ((buf.drop (DATA_SIZE * k)).take
      (calculatePacketSize buf.length (decide (k + 1 = n)) - HEADER_SIZE))
    h0 h10 hle hk hflags

/-- Unfolding one iteration of the receive loop on an incomplete window. -/
lemma recvPackets_cons_step (seq : Int) (S : RecvState) (d : Datagram)
    (ds : List Datagram) (b : Nat) (S' : RecvState) (as : List Int)
    (rest : List Datagram)
    (hne : S.totalPacketsReceived ≠ S.totalPacketsExpected)
    (h : recvPackets seq (recvStep seq S d).1 ds = some (b, S', as, rest)) :
    recvPackets seq S (d :: ds)
      = some (b, S', (recvStep seq S d).2 :: as, rest) := by
  unfold recvPackets
  rw [if_neg hne, h]

/-- Core window-assembly lemma: starting from the slot-`k` residual state,
the receiver consumes the remaining in-order window packets, acks each,
completes exactly at the last one, and its buffer holds the chunk. -/
lemma recvPackets_window_aux (buf : List Nat) (seq : Int) (atEof : Bool)
    (g : List Nat) (rest : List Datagram)
    (h1 : 1 ≤ buf.length) (h2 : buf.length ≤ DATA_SIZE * WINDOW_SIZE)
    (h0 : 0 ≤ seq) (h10 : seq % 10 = 0) (hle : seq ≤ 100)
    (hEof : atEof = false → numberOfPackets buf.length = WINDOW_SIZE) :
    ∀ (m k : Nat) (S : RecvState),
      1 ≤ m → k + m = numberOfPackets buf.length →
      S.totalPacketsExpected = WINDOW_SIZE →
      S.packetsReceived.length = WINDOW_SIZE →
      (∀ j, S.packetsReceived.getD j false = decide (j < k)) →
      S.totalPacketsReceived = k →
      S.bytesReceived = DATA_SIZE * k →
      S.bufOut = buf.take (DATA_SIZE * k) ++ g.drop (DATA_SIZE * k) →
      S.eofOut = false →
      ∃ S', recvPackets seq S
          ((List.range' k m).map
              (windowPacket buf seq (numberOfPackets buf.length) atEof) ++ rest)
        = some (buf.length, S', (List.range' k m).map (seqNoOfSlot seq), rest)
        ∧ S'.bufOut = buf ++ g.drop buf.length ∧ S'.eofOut = atEof := by
  intro m
  induction m with
  | zero =>
    intro k S h1m
    omega
  | succ m' ih =>
    intro k S _ hk hSexp hSlen hSinv hScnt hSbytes hSbuf hSeof
    have hn10 : numberOfPackets buf.length ≤ WINDOW_SIZE := numberOfPackets_le _ h2
    have hk10 : k < 10 := by simp only [WINDOW_SIZE] at hn10; omega
    have hkflags : S.packetsReceived.getD k false = false := by
      rw [hSinv k]
      simp
    have hlow : DATA_SIZE * (numberOfPackets buf.length - 1) < buf.length :=
      numberOfPackets_lower _ h1
    have hne : S.totalPacketsReceived ≠ S.totalPacketsExpected := by
      rw [hScnt, hSexp]
      simp only [WINDOW_SIZE]
      omega
    rw [List.range'_succ, List.map_cons, List.map_cons, List.cons_append]
    cases m' with
    | zero =>
      have hkn : k + 1 = numberOfPackets buf.length := by omega
      have hdec : decide (k + 1 = numberOfPackets buf.length) = true := by
        simp [hkn]
      have hpayform : (windowPacket buf seq (numberOfPackets buf.length) atEof k).payload
          = (buf.drop (DATA_SIZE * k)).take (buf.length - DATA_SIZE * k) := by
        simp only [windowPacket, hdec]
        rw [calculatePacketSize_last _ h1,
          show numberOfPackets buf.length - 1 = k by omega]
      have hoff : DATA_SIZE * k ≤ buf.length := by
        have h4 := hlow
        simp only [DATA_SIZE] at *
        omega
      have hpaylen : (windowPacket buf seq (numberOfPackets buf.length) atEof k).payload.length
          = buf.length - DATA_SIZE * k := by
        rw [hpayform, List.length_take, List.length_drop]
        simp
      have hbuf1 : memcpyAt S.bufOut (k * DATA_SIZE)
          (windowPacket buf seq (numberOfPackets buf.length) atEof k).payload
          = buf ++ g.drop buf.length := by
        rw [hSbuf, Nat.mul_comm k DATA_SIZE, hpayform,
          memcpyAt_assemble buf g (DATA_SIZE * k) (buf.length - DATA_SIZE * k)
            (by omega),
          show DATA_SIZE * k + (buf.length - DATA_SIZE * k) = buf.length by omega,
          List.take_length]
      have hbytes1 : S.bytesReceived
          + (windowPacket buf seq (numberOfPackets buf.length) atEof k).payload.length
          = buf.length := by
        rw [hSbytes, hpaylen]
        simp only [DATA_SIZE] at hoff ⊢
        omega
      have hexp2 : (if decide (k + 1 = numberOfPackets buf.length) && atEof
          then k + 1 else S.totalPacketsExpected) = k + 1 := by
        rw [hdec, Bool.true_and]
        cases atEof
        · rw [if_neg (by simp), hSexp]
          have hN := hEof rfl
          simp only [WINDOW_SIZE] at *
          omega
        · rw [if_pos rfl]
      have heof2 : (if decide (k + 1 = numberOfPackets buf.length) && atEof
          then true else S.eofOut) = atEof := by
        rw [hdec, Bool.true_and]
        cases atEof
        · rw [if_neg (by simp), hSeof]
        · rw [if_pos rfl]
      have hstep2 : recvStep seq S
            (windowPacket buf seq (numberOfPackets buf.length) atEof k) =
          ({ totalPacketsExpected := k + 1
           , packetsReceived := S.packetsReceived.set k true
           , totalPacketsReceived := k + 1
           , bytesReceived := buf.length
           , bufOut := buf ++ g.drop buf.length
           , eofOut := atEof }, seqNoOfSlot seq k) := by
        rw [recvStep_window buf seq (numberOfPackets buf.length) atEof S k
          h0 h10 hle hk10 hkflags, hexp2, heof2, hbytes1, hbuf1, hScnt]
      have himm : recvPackets seq
          ({ totalPacketsExpected := k + 1
           , packetsReceived := S.packetsReceived.set k true
           , totalPacketsReceived := k + 1
           , bytesReceived := buf.length
           , bufOut := buf ++ g.drop buf.length
           , eofOut := atEof } : RecvState)
          (([] : List Datagram) ++ rest)
          = some (buf.length,
              { totalPacketsExpected := k + 1
              , packetsReceived := S.packetsReceived.set k true
              , totalPacketsReceived := k + 1
              , bytesReceived := buf.length
              , bufOut := buf ++ g.drop buf.length
              , eofOut := atEof }, [], ([] : List Datagram) ++ rest) :=
        recvPackets_immediate seq _ _ rfl
      have hfin := recvPackets_cons_step seq S
        (windowPacket buf seq (numberOfPackets buf.length) atEof k)
        ((List.range' (k + 1) 0).map
            (windowPacket buf seq (numberOfPackets buf.length) atEof) ++ rest)
        buf.length _ [] (([] : List Datagram) ++ rest) hne
        (by rw [hstep2]; exact himm)
      rw [hstep2] at hfin
      exact ⟨_, hfin, rfl, rfl⟩
    | succ m2 =>
      have hkn : ¬(k + 1 = numberOfPackets buf.length) := by omega
      have hdec : decide (k + 1 = numberOfPackets buf.length) = false := by
        simp [hkn]
      have hfit : DATA_SIZE * (k + 1) ≤ buf.length := by
        have h3 : k + 1 ≤ numberOfPackets buf.length - 1 := by omega
        simp only [DATA_SIZE] at *
        omega
      have hpayform : (windowPacket buf seq (numberOfPackets buf.length) atEof k).payload
          = (buf.drop (DATA_SIZE * k)).take DATA_SIZE := by
        simp only [windowPacket, hdec]
        rw [calculatePacketSize_not_last]
      have hpaylen : (windowPacket buf seq (numberOfPackets buf.length) atEof k).payload.length
          = DATA_SIZE := by
        rw [hpayform, List.length_take, List.length_drop]
        simp only [DATA_SIZE] at *
        omega
      have hbuf1 : memcpyAt S.bufOut (k * DATA_SIZE)
          (windowPacket buf seq (numberOfPackets buf.length) atEof k).payload
          = buf.take (DATA_SIZE * (k + 1)) ++ g.drop (DATA_SIZE * (k + 1)) := by
        rw [hSbuf, Nat.mul_comm k DATA_SIZE, hpayform,
          memcpyAt_assemble buf g (DATA_SIZE * k) DATA_SIZE
            (by simp only [DATA_SIZE] at *; omega),
          show DATA_SIZE * k + DATA_SIZE = DATA_SIZE * (k + 1) by ring]
      have hbytes3 : S.bytesReceived
          + (windowPacket buf seq (numberOfPackets buf.length) atEof k).payload.length
          = DATA_SIZE * (k + 1) := by
        rw [hSbytes, hpaylen]
        ring
      have hexp3 : (if decide (k + 1 = numberOfPackets buf.length) && atEof
          then k + 1 else S.totalPacketsExpected) = S.totalPacketsExpected := by
        rw [hdec, Bool.false_and, if_neg (by simp)]
      have heof3 : (if decide (k + 1 = numberOfPackets buf.length) && atEof
          then true else S.eofOut) = false := by
        rw [hdec, Bool.false_and, if_neg (by simp), hSeof]
      have hstep2 : recvStep seq S
            (windowPacket buf seq (numberOfPackets buf.length) atEof k) =
          ({ totalPacketsExpected := S.totalPacketsExpected
           , packetsReceived := S.packetsReceived.set k true
           , totalPacketsReceived := k + 1
           , bytesReceived := DATA_SIZE * (k + 1)
           , bufOut := buf.take (DATA_SIZE * (k + 1)) ++ g.drop (DATA_SIZE * (k + 1))
           , eofOut := false }, seqNoOfSlot seq k) := by
        rw [recvStep_window buf seq (numberOfPackets buf.length) atEof S k
          h0 h10 hle hk10 hkflags, hexp3, heof3, hbytes3, hbuf1, hScnt]
      obtain ⟨S', hS'eq, hS'buf, hS'eof⟩ := ih (k + 1)
        { totalPacketsExpected := S.totalPacketsExpected
        , packetsReceived := S.packetsReceived.set k true
        , totalPacketsReceived := k + 1
        , bytesReceived := DATA_SIZE * (k + 1)
        , bufOut := buf.take (DATA_SIZE * (k + 1)) ++ g.drop (DATA_SIZE * (k + 1))
        , eofOut := false }
        (by omega) (by omega) hSexp
        (by simp only [List.length_set]; exact hSlen)
        (flags_inv_step _ k hSlen hk10 hSinv)
        rfl rfl rfl rfl
      refine ⟨S', ?_, hS'buf, hS'eof⟩
      have hfin := recvPackets_cons_step seq S
        (windowPacket buf seq (numberOfPackets buf.length) atEof k)
        ((List.range' (k + 1) (m2 + 1)).map
            (windowPacket buf seq (numberOfPackets buf.length) atEof) ++ rest)
        buf.length S'
        ((List.range' (k + 1) (m2 + 1)).map (seqNoOfSlot seq)) rest hne
        (by rw [hstep2]; exact hS'eq)
      rw [hstep2] at hfin
      exact hfin

/-- Whole-window form of the assembly lemma, from the initial state. -/
lemma recvPackets_window (buf : List Nat) (seq : Int) (atEof : Bool)
    (g : List Nat) (rest : List Datagram)
    (h1 : 1 ≤ buf.length) (h2 : buf.length ≤ DATA_SIZE * WINDOW_SIZE)
    (h0 : 0 ≤ seq) (h10 : seq % 10 = 0) (hle : seq ≤ 100)
    (hEof : atEof = false → numberOfPackets buf.length = WINDOW_SIZE) :
    ∃ S', recvPackets seq (initRecvState g)
        ((List.range (numberOfPackets buf.length)).map
            (windowPacket buf seq (numberOfPackets buf.length) atEof) ++ rest)
      = some (buf.length, S',
          (List.range (numberOfPackets buf.length)).map (seqNoOfSlot seq), rest)
      ∧ S'.bufOut = buf ++ g.drop buf.length ∧ S'.eofOut = atEof := by
  rw [List.range_eq_range']
  exact recvPackets_window_aux buf seq atEof g rest h1 h2 h0 h10 hle hEof
    (numberOfPackets buf.length) 0 (initRecvState g)
    (numberOfPackets_pos _ h1) (by omega) rfl
    (by simp [initRecvState])
    (fun j => by simp [initRecvState, getD_replicate_false])
    rfl (by simp [initRecvState]) (by simp [initRecvState]) rfl

/-- Unfolding one window of the receiver session once `recvPackets` is known. -/
lemma receiveFileAux_step (g : List Nat) (fuel : Nat) (seq : Int)
    (out : List Nat) (ds : List Datagram) (bufSize : Nat) (s : RecvState)
    (acks : List Int) (rest : List Datagram)
    (h : recvPackets seq (initRecvState g) ds = some (bufSize, s, acks, rest)) :
    receiveFileAux g (fuel + 1) seq out ds
      = if s.eofOut then some (out ++ s.bufOut.take bufSize)
        else receiveFileAux g fuel (receiverAdvanceSeq seq)
          (out ++ s.bufOut.take bufSize) rest := by
  show (match recvPackets seq (initRecvState g) ds with
    | none => none
    | some (bufSize, s, _, rest) =>
      let out' := out ++ s.bufOut.take bufSize
      if s.eofOut then some out'
      else receiveFileAux g fuel (receiverAdvanceSeq seq) out' rest) = _
  rw [h]

/-- With no datagram pending and a fresh window, the receiver blocks. -/
lemma receiveFileAux_blocked (g : List Nat) (fuel : Nat) (seq : Int)
    (out : List Nat) :
    receiveFileAux g (fuel + 1) seq out [] = none := by
  unfold receiveFileAux
  rw [recvPackets_blocked seq _ (by simp [initRecvState, WINDOW_SIZE])]

/-- The lossless trace has at least one datagram per window. -/
lemma senderTraceAux_length_ge :
    ∀ (cs : List (List Nat)) (seq : Int),
      (∀ c ∈ cs, 1 ≤ c.length) →
      cs.length ≤ (senderTraceAux cs seq).length := by
  intro cs
  induction cs with
  | nil =>
    intro seq _
    simp [senderTraceAux]
  | cons c cs ih =>
    intro seq hmem
    show (c :: cs).length
      ≤ (transmitSweep c seq (feofAfterRead c) (List.replicate WINDOW_SIZE false)
          ++ senderTraceAux cs (senderAdvanceSeq seq)).length
    rw [List.length_append, transmitSweep_fresh, List.length_map,
      List.length_range, List.length_cons]
    have hp := numberOfPackets_pos c.length (hmem c (List.mem_cons_self c cs))
    have ht := ih (senderAdvanceSeq seq)
      (fun c' hc' => hmem c' (List.mem_cons_of_mem c hc'))
    omega

/-- Under a perfect transport the receiver consumes the sender's trace
window by window and terminates with exactly the file's bytes. -/
lemma receiveFileAux_perfect (g : List Nat) :
    ∀ (cs : List (List Nat)) (fuel : Nat) (seq : Int) (out : List Nat),
      cs ≠ [] →
      (∀ c ∈ cs, 1 ≤ c.length ∧ c.length ≤ DATA_SIZE * WINDOW_SIZE) →
      (∀ c ∈ cs.dropLast, c.length = DATA_SIZE * WINDOW_SIZE) →
      (∀ c, cs.getLast? = some c → c.length < DATA_SIZE * WINDOW_SIZE) →
      cs.length ≤ fuel →
      0 ≤ seq → seq % 10 = 0 → seq ≤ 100 →
      receiveFileAux g fuel seq out (senderTraceAux cs seq)
        = some (out ++ cs.flatten) := by
  intro cs
  induction cs with
  | nil =>
    intro fuel seq out hnil
    exact absurd rfl hnil
  | cons c cs ih =>
    intro fuel seq out _ hmem hdrop hlast hfuel h0 h10 hle
    obtain ⟨hc1, hc2⟩ := hmem c (List.mem_cons_self c cs)
    obtain ⟨f, rfl⟩ : ∃ f, fuel = f + 1 :=
      ⟨fuel - 1, by simp only [List.length_cons] at hfuel; omega⟩
    have hEofImp : feofAfterRead c = false →
        numberOfPackets c.length = WINDOW_SIZE := by
      intro hf
      have hnlt : ¬(c.length < DATA_SIZE * WINDOW_SIZE) := by
        simpa [feofAfterRead] using hf
      have hceq : c.length = DATA_SIZE * WINDOW_SIZE := by omega
      rw [hceq]
      exact numberOfPackets_full
    obtain ⟨S', hwin, hbufS, heofS⟩ := recvPackets_window c seq (feofAfterRead c)
      g (senderTraceAux cs (senderAdvanceSeq seq)) hc1 hc2 h0 h10 hle hEofImp
    have htrace : senderTraceAux (c :: cs) seq
        = (List.range (numberOfPackets c.length)).map
            (windowPacket c seq (numberOfPackets c.length) (feofAfterRead c))
          ++ senderTraceAux cs (senderAdvanceSeq seq) := by
      show transmitSweep c seq (feofAfterRead c) (List.replicate WINDOW_SIZE false)
          ++ senderTraceAux cs (senderAdvanceSeq seq) = _
      rw [transmitSweep_fresh]
    rw [htrace, receiveFileAux_step g f seq out _ c.length S' _ _ hwin]
    have htake : S'.bufOut.take c.length = c := by
      rw [hbufS]
      exact List.take_left c (g.drop c.length)
    rw [htake, heofS]
    cases cs with
    | nil =>
      have hshort := hlast c (List.getLast?_singleton c)
      have hfeof : feofAfterRead c = true := by
        simp only [feofAfterRead, decide_eq_true_eq]
        exact hshort
      rw [hfeof, if_pos rfl]
      simp [List.flatten_cons]
    | cons c2 cs2 =>
      have hcfull : c.length = DATA_SIZE * WINDOW_SIZE := by
        apply hdrop
        rw [List.dropLast_cons₂]
        exact List.mem_cons_self c _
      have hfeof : feofAfterRead c = false := by
        simp only [feofAfterRead, decide_eq_false_iff_not]
        omega
      rw [hfeof, if_neg (by simp)]
      rw [← advanceSeq_eq seq]
      obtain ⟨ha0, ha10, hale⟩ := senderAdvanceSeq_props seq h0 h10 hle
      rw [ih (f) (senderAdvanceSeq seq) (out ++ c) (by simp)
        (fun c' hc' => hmem c' (List.mem_cons_of_mem c hc'))
        (fun c' hc' => by
          apply hdrop
          rw [List.dropLast_cons₂]
          exact List.mem_cons_of_mem c hc')
        (fun c' hc' => hlast c' (by rw [List.getLast?_cons_cons]; exact hc'))
        (by simp only [List.length_cons] at hfuel ⊢; omega)
        ha0 ha10 hale]
      simp [List.flatten_cons, List.append_assoc]

/-- A file of exactly one full window is read as a single 5000-byte chunk. -/
lemma chunkFile_full_window :
    chunkFile (List.replicate (DATA_SIZE * WINDOW_SIZE) (0 : Nat))
      = [List.replicate (DATA_SIZE * WINDOW_SIZE) 0] := by
  rw [chunkFile_cons _ (by
    intro hcontra
    have hlen := congrArg List.length hcontra
    simp only [List.length_replicate, List.length_nil, DATA_SIZE, WINDOW_SIZE] at hlen
    omega)]
  rw [List.take_replicate, List.drop_replicate]
  simp [chunkFile_nil]

/-- Sender trace for a file of exactly one full window: ten packets, all
built with `feof` false, since the `fread` returned all 5000 requested
bytes and the EOF indicator is not yet set. -/
lemma senderTrace_full_window :
    senderTrace (List.replicate (DATA_SIZE * WINDOW_SIZE) (0 : Nat))
      = (List.range WINDOW_SIZE).map
          (windowPacket (List.replicate (DATA_SIZE * WINDOW_SIZE) 0) 0
            WINDOW_SIZE false) := by
  unfold senderTrace
  rw [chunkFile_full_window]
  show transmitSweep _ 0 (feofAfterRead _) (List.replicate WINDOW_SIZE false)
      ++ senderTraceAux [] (senderAdvanceSeq 0) = _
  rw [transmitSweep_fresh]
  have hfeof : feofAfterRead (List.replicate (DATA_SIZE * WINDOW_SIZE) (0 : Nat))
      = false := by
    simp [feofAfterRead]
  have hn : numberOfPackets (List.replicate (DATA_SIZE * WINDOW_SIZE) (0 : Nat)).length
      = WINDOW_SIZE := by
    rw [List.length_replicate]
    exact numberOfPackets_full
  rw [hfeof, hn]
  show _ ++ ([] : List Datagram) = _
  rw [List.append_nil]

/-! ## C2 — EOF flag on exact multiples of 5000 bytes (code bug) -/

/-- C2: the claim says the last packet transmitted for a non-empty file
carries the end-of-stream flag even when the file size is an exact
multiple of the 5000-byte window.  The code computes the flag as
`isLastPacket && feof(file)`, and after `fread` returns exactly the 5000
bytes requested `feof` is still false; so for a 5000-byte file all ten
transmitted packets (the whole transfer) carry `eofFlag = 0`, and the
receiver waits forever for a window that never comes. -/
theorem eof_flag_never_sent_on_5000_multiple :
    (senderTrace (List.replicate (DATA_SIZE * WINDOW_SIZE) 0)).length
      = WINDOW_SIZE ∧
    (senderTrace (List.replicate (DATA_SIZE * WINDOW_SIZE) 0)).all
        (fun d => !d.eofFlag) = true := by
  rw [senderTrace_full_window]
  constructor
  · rw [List.length_map, List.length_range]
  · rw [List.all_eq_true]
    intro d hd
    obtain ⟨i, _, rfl⟩ := List.mem_map.mp hd
    simp [windowPacket]

/-! ## C1 — end-to-end lossless transfer (corrected) -/

/-- C1 counterexample: as stated, the claim fails — the receiver does not
terminate for every file content.  For the empty file the sender sends
nothing and the receiver blocks forever on its first window; for a file of
exactly 5000 bytes (one full window) no packet ever carries the EOF flag
(see `eof_flag_never_sent_on_5000_multiple`), the receiver finishes window
one and then blocks forever waiting for another window.  `none` is the
receiver run exhausting every datagram the sender will ever send with the
session still incomplete. -/
theorem lossless_transfer_claim_false :
    receiverRun [] (senderTrace []) = none ∧
    receiverRun [] (senderTrace (List.replicate (DATA_SIZE * WINDOW_SIZE) 0))
      = none := by
  constructor
  · have h1 : senderTrace ([] : List Nat) = [] := by
      unfold senderTrace
      rw [chunkFile_nil]
      rfl
    rw [h1]
    show receiveFileAux [] (0 + 1) 0 [] [] = none
    exact receiveFileAux_blocked [] 0 0 []
  · have hc : (List.replicate (DATA_SIZE * WINDOW_SIZE) (0 : Nat)).length
        = DATA_SIZE * WINDOW_SIZE := List.length_replicate _ _
    have hn : numberOfPackets (List.replicate (DATA_SIZE * WINDOW_SIZE) (0 : Nat)).length
        = WINDOW_SIZE := by
      rw [hc]
      exact numberOfPackets_full
    obtain ⟨S', hwin, hbufS, heofS⟩ := recvPackets_window
      (List.replicate (DATA_SIZE * WINDOW_SIZE) 0) 0 false [] []
      (by rw [hc]; simp [DATA_SIZE, WINDOW_SIZE]) (by rw [hc])
      (by norm_num) (by norm_num) (by norm_num)
      (fun _ => hn)
    rw [hn] at hwin
    rw [List.append_nil] at hwin
    rw [senderTrace_full_window]
    unfold receiverRun
    rw [List.length_map, List.length_range]
    rw [receiveFileAux_step [] WINDOW_SIZE 0 [] _ _ S' _ _ hwin]
    rw [heofS, if_neg (by simp)]
    show receiveFileAux [] (9 + 1) (receiverAdvanceSeq 0) _ [] = none
    exact receiveFileAux_blocked [] 9 _ _

/-- C1 amended: for every non-empty file content `P` whose length is not
an exact multiple of the 5000-byte window (the excluded cases fail: see
`lossless_transfer_claim_false`), running the sender against a transport
that delivers every datagram exactly once, in order and without loss — the
receiver acks each packet, all acks arrive within the phase — makes both
endpoints terminate: the sender completes every window in one round and
exits at the zero-length read, and the receiver's output is byte-for-byte
identical to `P`, whatever the uninitialized window buffer `g` held. -/
theorem lossless_transfer_delivers_file (P g : List Nat)
    (hP : P ≠ []) (hmod : P.length % (DATA_SIZE * WINDOW_SIZE) ≠ 0) :
    (∃ t, sendFileRun P (perfectAckPhases (chunkFile P) 0)
        = some (senderTrace P, t)) ∧
    receiverRun g (senderTrace P) = some P := by
  have hmem := chunkFile_mem_len P
  constructor
  · exact sendFileAux_perfect (chunkFile P) 0 0 hmem (by norm_num) (by norm_num)
      (by norm_num)
  · show receiveFileAux g ((senderTraceAux (chunkFile P) 0).length + 1) 0 []
        (senderTraceAux (chunkFile P) 0) = some P
    rw [receiveFileAux_perfect g (chunkFile P)
      ((senderTraceAux (chunkFile P) 0).length + 1) 0 []
      (chunkFile_ne_nil P hP) hmem (chunkFile_dropLast_full P)
      (fun c hc => (chunkFile_getLast_short P hmod c hc).2)
      (by
        have hge := senderTraceAux_length_ge (chunkFile P) 0
          (fun c hc => (hmem c hc).1)
        omega)
      (by norm_num) (by norm_num) (by norm_num)]
    rw [List.nil_append, chunkFile_flatten]

/-- Witness for `lossless_transfer_delivers_file` on a 3-byte file. -/
theorem lossless_transfer_delivers_file_witness :
    (([1, 2, 3] : List Nat) ≠ [] ∧
      ([1, 2, 3] : List Nat).length % (DATA_SIZE * WINDOW_SIZE) ≠ 0) ∧
    ((∃ t, sendFileRun [1, 2, 3] (perfectAckPhases (chunkFile [1, 2, 3]) 0)
        = some (senderTrace [1, 2, 3], t)) ∧
      receiverRun [] (senderTrace [1, 2, 3]) = some [1, 2, 3]) :=
  ⟨⟨by decide, by decide⟩,
   lossless_transfer_delivers_file [1, 2, 3] [] (by decide) (by decide)⟩

end ReliableUDP
